import Mathlib

/-!
Verification of the conventional-commit library (epage/conventional-commit).

Shallow embedding of:
* `src/component.rs` — the component model: `FooterSeparator` with its
  `as_str`/`from_str` conversions, the free-text wrappers
  (`Description`, `Body`, `FooterValue`, byte-exact equality) and the
  case-insensitive wrappers (`Type`, `Scope`, `FooterToken`, equality and
  hashing over a case-folded projection via the `unicase` dependency);
* `src/commit.rs` — `Commit::new` (parse + breaking-change derivation) and
  the `Display` implementation;
* the grammar recognizer (`parse`) and the error module, which are part of
  the crate but not present under `src/`; they are modelled from the spec
  (§4.2, §7) and marked as such in their doc comments.
-/

/-- Modelled from the spec: the error module (`src/error.rs`) is not under
`src/`.  Spec §7 gives the taxonomy: a malformed-header parse error and an
invalid-separator-literal format error (`ErrorKind::InvalidFormat`, the kind
used by `FooterSeparator::from_str` in `src/component.rs`). -/
inductive Error where
  | invalidFormat
  | malformedHeader
deriving DecidableEq

/-- `FooterSeparator` from `src/component.rs`: the type of separator between
the footer token and value.  The hidden `__NonExhaustive` variant exists in
the source for future-proofing and is never constructed. -/
inductive FooterSeparator where
  | ColonSpace
  | SpacePound
  | NonExhaustive
deriving DecidableEq

/-- `FooterSeparator::as_str` from `src/component.rs`.  On `__NonExhaustive`
the source panics (`unreachable!`); that variant is hidden and never
constructed, and we return `""` there for totality. -/
def FooterSeparator.asStr : FooterSeparator → String
  | .ColonSpace => ": "
  | .SpacePound => " #"
  | .NonExhaustive => ""

deriving instance DecidableEq for Except

/-- `FooterSeparator::from_str` from `src/component.rs`: `": "` and `" #"`
are the only accepted literals; anything else is an `InvalidFormat` error. -/
def FooterSeparator.fromStr (sep : String) : Except Error FooterSeparator :=
  if sep = ": " then .ok .ColonSpace
  else if sep = " #" then .ok .SpacePound
  else .error .invalidFormat

/-- Modelled from the spec: the locale-independent case folding used by the
identifier-like wrappers.  The folding function lives in the external
`unicase` dependency, whose source is not part of this repository; spec §4.1
and §9 specify comparison and hashing over a case-folded projection of the
original text.  ASCII folding stands in for the full Unicode fold. -/
def caseFold (s : String) : String :=
  ⟨s.data.map Char.toLower⟩

/-- A simple 64-bit string hash, standing in for the hasher the derived
`Hash` impls feed; the wrappers decide WHAT is hashed (the folded or the
exact text), which is the property under verification. -/
def strHash (s : String) : Nat :=
  s.data.foldl (fun h c => (h * 31 + c.toNat) % (2 ^ 64)) 5381

/-- `Type` from `src/component.rs` (`unicase_components!`): wraps the
original text; equality and hashing go through `unicase::UniCase`, i.e.
through the case-folded projection.  (`Type` is a reserved word in Lean,
hence the prime.) -/
structure Type' where
  value : String

/-- Derived `PartialEq` on `Type`: `UniCase` equality of the wrapped text,
i.e. equality of the case-folded forms. -/
def Type'.beq (a b : Type') : Bool :=
  caseFold a.value == caseFold b.value

instance Type'.instBEq : BEq Type' := ⟨Type'.beq⟩

/-- Derived `Hash` on `Type`: `UniCase` hashes the case-folded form. -/
def Type'.hashF (a : Type') : Nat :=
  strHash (caseFold a.value)

/-- `Scope` from `src/component.rs` (`unicase_components!`). -/
structure Scope where
  value : String

/-- Derived `PartialEq` on `Scope`: equality of the case-folded forms. -/
def Scope.beq (a b : Scope) : Bool :=
  caseFold a.value == caseFold b.value

instance Scope.instBEq : BEq Scope := ⟨Scope.beq⟩

/-- Derived `Hash` on `Scope`: hashes the case-folded form. -/
def Scope.hashF (a : Scope) : Nat :=
  strHash (caseFold a.value)

/-- `FooterToken` from `src/component.rs` (`unicase_components!`). -/
structure FooterToken where
  value : String

/-- Derived `PartialEq` on `FooterToken`: equality of the case-folded forms. -/
def FooterToken.beq (a b : FooterToken) : Bool :=
  caseFold a.value == caseFold b.value

instance FooterToken.instBEq : BEq FooterToken := ⟨FooterToken.beq⟩

/-- Derived `Hash` on `FooterToken`: hashes the case-folded form. -/
def FooterToken.hashF (a : FooterToken) : Nat :=
  strHash (caseFold a.value)

/-- `Description` from `src/component.rs` (`components!`): a free-text
wrapper with derived (byte-exact) equality on the wrapped slice. -/
structure Description where
  value : String
deriving DecidableEq

/-- `Body` from `src/component.rs` (`components!`). -/
structure Body where
  value : String
deriving DecidableEq

/-- `FooterValue` from `src/component.rs` (`components!`). -/
structure FooterValue where
  value : String
deriving DecidableEq

/-- A footer (`Footer` in `src/component.rs`, `Trailer` in `src/commit.rs`):
token, separator and value.  The fields are kept as the raw text spans the
parser produced; the wrapper equalities are stated on the wrapper types
above. -/
structure Footer where
  token : String
  sep : FooterSeparator
  value : String
deriving DecidableEq

/-- `Commit` from `src/commit.rs`: the parsed result. -/
structure Commit where
  ty : String
  scope : Option String
  description : String
  body : Option String
  breaking : Bool
  trailers : List Footer
deriving DecidableEq

/-- The `Display` impl for `Commit` from `src/commit.rs`, as the sequence of
writes it performs on the formatter: the type, `({scope})` when a scope is
present, `: {description}`, `\n\n{body}` when a body is present, and
`\n\n{key}{separator}{value}` for each trailer in order. -/
def Commit.display (c : Commit) : String :=
  let a := c.ty
  let a := match c.scope with
    | some s => a ++ "(" ++ s ++ ")"
    | none => a
  let a := a ++ ": " ++ c.description
  let a := match c.body with
    | some b => a ++ "\n\n" ++ b
    | none => a
  c.trailers.foldl (fun a t => a ++ "\n\n" ++ t.token ++ t.sep.asStr ++ t.value) a

/-- Modelled from the spec (§4.2 item 1): a character admissible in the
commit type — anything but `(`, `)`, `!`, `:` and whitespace. -/
def isTypeChar (c : Char) : Bool :=
  !(c == '(') && !(c == ')') && !(c == '!') && !(c == ':') && !c.isWhitespace

/-- Split off the first line: the characters before the first newline and,
when a newline is present, the characters after it. -/
def splitFirstLine : List Char → List Char × Option (List Char)
  | [] => ([], none)
  | c :: rest =>
    if c = '\n' then ([], some rest)
    else
      let (l, r) := splitFirstLine rest
      (c :: l, r)

/-- Split text into its lines at each newline character. -/
def splitLines : List Char → List (List Char)
  | [] => [[]]
  | c :: rest =>
    if c = '\n' then [] :: splitLines rest
    else
      match splitLines rest with
      | [] => [[c]]
      | l :: ls => (c :: l) :: ls

/-- Header recognition, after type and scope: the optional `!` breaking
marker, then exactly `: `, then the description (the rest of the header
line), which must contain a non-whitespace character (spec §4.2 item 1). -/
def parseHeaderTail (ty : List Char) (sc : Option (List Char)) (r : List Char) :
    Except Error (List Char × Option (List Char) × Bool × List Char) :=
  match r with
  | '!' :: ':' :: ' ' :: d =>
    if d.all Char.isWhitespace then .error .malformedHeader
    else .ok (ty, sc, true, d)
  | ':' :: ' ' :: d =>
    if d.all Char.isWhitespace then .error .malformedHeader
    else .ok (ty, sc, false, d)
  | _ => .error .malformedHeader

/-- Modelled from the spec (§4.2 item 1): recognition of the header line
`type ['(' scope ')'] ['!'] ': ' description`.  The type is the longest
nonempty run of type characters; the scope, when a `(` follows, is the
content up to the next `)` (possibly empty, per the present-but-empty
policy); the separator must be exactly one colon and one space; the
description is the remainder of the line and must not be all whitespace. -/
def parseHeader (l : List Char) :
    Except Error (List Char × Option (List Char) × Bool × List Char) :=
  let ty := l.takeWhile isTypeChar
  if ty = [] then .error .malformedHeader
  else
    match l.dropWhile isTypeChar with
    | '(' :: r1 =>
      let sc := r1.takeWhile (fun c => !(c == ')'))
      match r1.dropWhile (fun c => !(c == ')')) with
      | ')' :: r2 => parseHeaderTail ty (some sc) r2
      | _ => .error .malformedHeader
    | r => parseHeaderTail ty none r

/-- Modelled from the spec (§4.2 item 3): a character admissible in a
trailer word — no whitespace (a hyphen stands in for a space) and no colon
(the token ends where the `: ` separator starts). -/
def isTokenChar (c : Char) : Bool :=
  !c.isWhitespace && !(c == ':')

/-- Case-insensitive comparison of a pattern against the first characters of
a line (spec §4.2 item 3: the token is matched case-insensitively). -/
def beginsWithFold : List Char → List Char → Bool
  | [], _ => true
  | _ :: _, [] => false
  | p :: ps, c :: cs => (p.toLower == c.toLower) && beginsWithFold ps cs

/-- The literal breaking-change phrase (spec §4.2 item 3). -/
def breakingPhrase : List Char :=
  "BREAKING CHANGE".data

/-- Footer-line recognition for an ordinary trailer word: the token is the
longest nonempty run of token characters, followed by exactly `": "` or
`" #"`; the value is the rest of the line. -/
def parseFooterWord (l : List Char) :
    Option (List Char × FooterSeparator × List Char) :=
  let tok := l.takeWhile isTokenChar
  if tok = [] then none
  else
    match l.dropWhile isTokenChar with
    | ':' :: ' ' :: v => some (tok, .ColonSpace, v)
    | ' ' :: '#' :: v => some (tok, .SpacePound, v)
    | _ => none

/-- Modelled from the spec (§4.2 item 3): does a line start a footer?  The
token is either the phrase `BREAKING CHANGE` (matched case-insensitively,
the original text kept) or a trailer word, followed by the separator `": "`
or `" #"`; the value is the remainder of the line. -/
def parseFooterLine (l : List Char) :
    Option (List Char × FooterSeparator × List Char) :=
  if beginsWithFold breakingPhrase l then
    match l.drop 15 with
    | ':' :: ' ' :: v => some (l.take 15, .ColonSpace, v)
    | ' ' :: '#' :: v => some (l.take 15, .SpacePound, v)
    | _ => parseFooterWord l
  else parseFooterWord l

/-- Fold a non-matching line into the value of the most recent footer
(spec §4.2 item 3, the permissive-tail policy).  The accumulator holds the
footers most recent first. -/
def addContinuation (acc : List (List Char × FooterSeparator × List Char))
    (l : List Char) : List (List Char × FooterSeparator × List Char) :=
  match acc with
  | [] => []
  | (t, s, v) :: rest => (t, s, v ++ '\n' :: l) :: rest

/-- Modelled from the spec (§4.2 item 3): build the footer block from its
lines.  Each line matching the token/separator pattern starts a new footer;
every other line is a continuation of the previous footer's value. -/
def buildFootersAux (acc : List (List Char × FooterSeparator × List Char)) :
    List (List Char) → List (List Char × FooterSeparator × List Char)
  | [] => acc.reverse
  | l :: ls =>
    match parseFooterLine l with
    | some f => buildFootersAux (f :: acc) ls
    | none => buildFootersAux (addContinuation acc l) ls

/-- Drop trailing blank lines (the blank separation between the body and the
footer block belongs to neither). -/
def dropTrailingEmpty (ls : List (List Char)) : List (List Char) :=
  (ls.reverse.dropWhile (fun l => l.isEmpty)).reverse

/-- Rejoin lines with newlines. -/
def joinLines (ls : List (List Char)) : List Char :=
  List.intercalate ['\n'] ls

/-- Modelled from the spec (§4.2 items 2 and 3): the text after the header
and its mandatory blank line.  The footer block starts greedily at the first
line matching the footer pattern; the body is everything before it, with
internal blank lines kept verbatim and trailing blank lines dropped; an
empty body is `none`. -/
def parseSections (r : List Char) :
    Option (List Char) × List (List Char × FooterSeparator × List Char) :=
  let ls := splitLines r
  let i := ls.findIdx (fun l => (parseFooterLine l).isSome)
  let bodyLs := dropTrailingEmpty (ls.take i)
  let body := if bodyLs.isEmpty then none else some (joinLines bodyLs)
  (body, buildFootersAux [] (ls.drop i))

/-- Modelled from the spec (§4.2): the grammar recognizer (`parse` from the
crate's parser module, which is not under `src/`).  Produces the raw
six-tuple consumed by `Commit::new`: type, optional scope, whether the `!`
marker was present (`breaking.is_some()` on the raw marker), description,
optional body, and the footer triples in source order.  After the header
line the input either ends (an optional trailing newline is accepted) or
must continue with a blank line introducing the body/footer sections; other
trailing content is a parse error.  This definition handles the text after
the header line: nothing (or a lone trailing newline) is accepted with no
body and no footers; a blank line introduces the body/footer sections; any
other trailing content is a parse error (spec §4.2 item 2). -/
def parseRest (t : List Char) (sc : Option (List Char)) (ex : Bool) (d : List Char) :
    Option (List Char) →
      Except Error (String × Option String × Bool × String × Option String ×
        List (String × FooterSeparator × String))
  | none => .ok (⟨t⟩, sc.map String.mk, ex, ⟨d⟩, none, [])
  | some [] => .ok (⟨t⟩, sc.map String.mk, ex, ⟨d⟩, none, [])
  | some (c0 :: r2) =>
    if c0 = '\n' then
      .ok (⟨t⟩, sc.map String.mk, ex, ⟨d⟩, (parseSections r2).1.map String.mk,
        (parseSections r2).2.map (fun (tk, sp, v) => (⟨tk⟩, sp, ⟨v⟩)))
    else .error .malformedHeader

/-- Modelled from the spec (§4.2): top level of the grammar recognizer —
recognize the header on the first line, then hand the rest to `parseRest`. -/
def parse (s : String) :
    Except Error (String × Option String × Bool × String × Option String ×
      List (String × FooterSeparator × String)) :=
  match parseHeader (splitFirstLine s.data).1 with
  | .error e => .error e
  | .ok (t, sc, ex, d) => parseRest t sc ex d (splitFirstLine s.data).2

/-
Instance-search in this toolchain does not chain `Prod` `DecidableEq`
instances deeply enough for the recognizer's six-tuple result, so the
intermediate instances are registered explicitly.
-/

instance : DecidableEq (String × Option String × List (String × FooterSeparator × String)) :=
  instDecidableEqProd

instance : DecidableEq (Bool × String × Option String × List (String × FooterSeparator × String)) :=
  instDecidableEqProd

instance : DecidableEq (Option String × Bool × String × Option String × List (String × FooterSeparator × String)) :=
  instDecidableEqProd

instance : DecidableEq (String × Option String × Bool × String × Option String × List (String × FooterSeparator × String)) :=
  instDecidableEqProd

/-- `Commit::new` from `src/commit.rs`: run the recognizer, then assemble
the `Commit`, deriving `breaking` as: the explicit marker was present, or
some trailer's raw token is byte-equal to `"BREAKING CHANGE"`. -/
def Commit.new (s : String) : Except Error Commit :=
  match parse s with
  | .error e => .error e
  | .ok (ty, scope, breaking, description, body, trailers) =>
    .ok {
      ty := ty
      scope := scope
      description := description
      body := body
      breaking := breaking || trailers.any (fun k => k.1 == "BREAKING CHANGE")
      trailers := trailers.map (fun (tk, sp, v) => ⟨tk, sp, v⟩)
    }

/-- The trailer portion of the textual reconstruction contract: for each
trailer in order, a blank line, then its token, its literal separator and
its value. -/
def trailerText : List Footer → String
  | [] => ""
  | t :: ts => "\n\n" ++ t.token ++ t.sep.asStr ++ t.value ++ trailerText ts

theorem display_foldl_eq (ts : List Footer) (a : String) :
    ts.foldl (fun a t => a ++ "\n\n" ++ t.token ++ t.sep.asStr ++ t.value) a
      = a ++ trailerText ts := by
  induction ts generalizing a with
  | nil => simp [trailerText]
  | cons t ts ih =>
    rw [List.foldl_cons, ih, trailerText]
    apply String.ext
    simp [String.data_append]

/-- C5: `FooterSeparator::from_str` accepts exactly the literals `": "`
(giving `ColonSpace`) and `" #"` (giving `SpacePound`) and fails with an
`InvalidFormat` error on every other string. -/
theorem fromStr_spec (s : String) :
    (FooterSeparator.fromStr s = .ok .ColonSpace ↔ s = ": ") ∧
    (FooterSeparator.fromStr s = .ok .SpacePound ↔ s = " #") ∧
    (s ≠ ": " → s ≠ " #" → FooterSeparator.fromStr s = .error .invalidFormat) := by
  unfold FooterSeparator.fromStr
  by_cases h1 : s = ": " <;> by_cases h2 : s = " #" <;> simp_all

/-- Witness for C5: the three clauses at the concrete inputs `": "`, `" #"`
and `"x"`. -/
theorem fromStr_spec_w :
    FooterSeparator.fromStr "x" = .error .invalidFormat :=
  (fromStr_spec "x").2.2 (by decide) (by decide)

/-- C6: `FooterSeparator` round-trips losslessly through its literal form:
`from_str` after `as_str` restores each of the two variants, and `as_str`
after `from_str` restores each of the two valid literals. -/
theorem sep_roundtrip :
    FooterSeparator.fromStr (FooterSeparator.asStr .ColonSpace) = .ok .ColonSpace ∧
    FooterSeparator.fromStr (FooterSeparator.asStr .SpacePound) = .ok .SpacePound ∧
    (FooterSeparator.fromStr ": ").map FooterSeparator.asStr = .ok ": " ∧
    (FooterSeparator.fromStr " #").map FooterSeparator.asStr = .ok " #" := by
  decide

/-- C7: for the identifier-like wrappers `Type`, `Scope` and `FooterToken`,
two wrappers are equal exactly when the case-folded forms of the wrapped
strings are equal, and equal wrappers have equal hashes (the hash is
computed over the folded form). -/
theorem unicase_eq_hash (a b : String) :
    ((Type'.mk a == Type'.mk b) = true ↔ caseFold a = caseFold b) ∧
    ((Scope.mk a == Scope.mk b) = true ↔ caseFold a = caseFold b) ∧
    ((FooterToken.mk a == FooterToken.mk b) = true ↔ caseFold a = caseFold b) ∧
    ((Type'.mk a == Type'.mk b) = true →
      (Type'.mk a).hashF = (Type'.mk b).hashF) ∧
    ((Scope.mk a == Scope.mk b) = true →
      (Scope.mk a).hashF = (Scope.mk b).hashF) ∧
    ((FooterToken.mk a == FooterToken.mk b) = true →
      (FooterToken.mk a).hashF = (FooterToken.mk b).hashF) := by
  have hty : (Type'.mk a == Type'.mk b) = true ↔ caseFold a = caseFold b := by
    show Type'.beq _ _ = true ↔ _
    simp [Type'.beq]
  have hsc : (Scope.mk a == Scope.mk b) = true ↔ caseFold a = caseFold b := by
    show Scope.beq _ _ = true ↔ _
    simp [Scope.beq]
  have htk : (FooterToken.mk a == FooterToken.mk b) = true ↔ caseFold a = caseFold b := by
    show FooterToken.beq _ _ = true ↔ _
    simp [FooterToken.beq]
  refine ⟨hty, hsc, htk, ?_, ?_, ?_⟩
  · intro h
    simp [Type'.hashF, hty.mp h]
  · intro h
    simp [Scope.hashF, hsc.mp h]
  · intro h
    simp [FooterToken.hashF, htk.mp h]

/-- Witness for C7: `"Ab"` and `"aB"` fold to the same string, so the
wrappers compare equal and hash alike. -/
theorem unicase_eq_hash_w :
    (Type'.mk "Ab" == Type'.mk "aB") = true ∧
    (Type'.mk "Ab").hashF = (Type'.mk "aB").hashF := by
  have h := unicase_eq_hash "Ab" "aB"
  have he : (Type'.mk "Ab" == Type'.mk "aB") = true := h.1.mpr (by decide)
  exact ⟨he, h.2.2.2.1 he⟩

/-- C8: for the free-text wrappers `Description`, `Body` and `FooterValue`,
two wrappers are equal exactly when the wrapped strings are byte-for-byte
equal. -/
theorem freetext_eq (a b : String) :
    (Description.mk a = Description.mk b ↔ a = b) ∧
    (Body.mk a = Body.mk b ↔ a = b) ∧
    (FooterValue.mk a = FooterValue.mk b ↔ a = b) := by
  refine ⟨⟨fun h => ?_, fun h => by rw [h]⟩,
          ⟨fun h => ?_, fun h => by rw [h]⟩,
          ⟨fun h => ?_, fun h => by rw [h]⟩⟩
  · exact congrArg Description.value h
  · exact congrArg Body.value h
  · exact congrArg FooterValue.value h

/-- C4: the textual reconstruction contract.  The `Display` rendering is
exactly: the type, `(scope)` when a scope is present, then `: ` and the
description, then a blank line and the body when present, then for each
trailer in order a blank line followed by the trailer's token, its literal
separator string and its value. -/
theorem display_spec (c : Commit) :
    c.display = c.ty
      ++ (match c.scope with | some s => "(" ++ s ++ ")" | none => "")
      ++ ": " ++ c.description
      ++ (match c.body with | some b => "\n\n" ++ b | none => "")
      ++ trailerText c.trailers := by
  unfold Commit.display
  rcases c with ⟨t, sc, d, b, br, tr⟩
  cases sc <;> cases b <;>
    simp only [display_foldl_eq] <;>
    · apply String.ext
      simp [String.data_append]

/-- C10: the `Display` rendering never emits the `!` breaking marker — it
does not read the `breaking` field at all, so two commits that agree on
type, scope, description, body and trailers but differ on `breaking`
render to byte-identical text. -/
theorem display_ignores_breaking (t : String) (sc : Option String) (d : String)
    (b : Option String) (tr : List Footer) (b1 b2 : Bool) :
    Commit.display ⟨t, sc, d, b, b1, tr⟩ = Commit.display ⟨t, sc, d, b, b2, tr⟩ := rfl

theorem takeWhile_append_all {α} (p : α → Bool) (a b : List α)
    (h : ∀ x ∈ a, p x = true) :
    (a ++ b).takeWhile p = a ++ b.takeWhile p := by
  induction a with
  | nil => simp
  | cons x xs ih =>
    rw [List.cons_append, List.takeWhile_cons_of_pos (h x (by simp)), List.cons_append,
      ih (fun y hy => h y (by simp [hy]))]

theorem dropWhile_append_all {α} (p : α → Bool) (a b : List α)
    (h : ∀ x ∈ a, p x = true) :
    (a ++ b).dropWhile p = b.dropWhile p := by
  induction a with
  | nil => simp
  | cons x xs ih =>
    rw [List.cons_append, List.dropWhile_cons_of_pos (h x (by simp))]
    exact ih (fun y hy => h y (by simp [hy]))

theorem splitFirstLine_no_newline (l : List Char) (h : '\n' ∉ l) :
    splitFirstLine l = (l, none) := by
  induction l with
  | nil => rfl
  | cons c r ih =>
    have hc : ¬ c = '\n' := fun hc => h (by simp [hc])
    simp only [splitFirstLine, if_neg hc, ih (fun hr => h (by simp [hr]))]

theorem splitFirstLine_fst_no_newline (l : List Char) :
    '\n' ∉ (splitFirstLine l).1 := by
  induction l with
  | nil => simp [splitFirstLine]
  | cons c r ih =>
    by_cases hc : c = '\n'
    · simp [splitFirstLine, hc]
    · simpa [splitFirstLine, hc, Ne.symm hc] using ih

theorem isTypeChar_not_newline {c : Char} (h : isTypeChar c = true) : c ≠ '\n' := by
  intro hc
  subst hc
  exact absurd h (by decide)

theorem parseHeaderTail_colon (ty : List Char) (sc : Option (List Char)) (d : List Char)
    (hd : ¬ d.all Char.isWhitespace = true) :
    parseHeaderTail ty sc (':' :: ' ' :: d) = .ok (ty, sc, false, d) := by
  unfold parseHeaderTail
  split
  · rename_i d0 heq
    simp at heq
  · rename_i d0 heq
    simp only [List.cons.injEq, true_and] at heq
    subst heq
    rw [if_neg hd]
  · rename_i hne1 hne2
    exact ((hne2 d) rfl).elim

theorem parseHeaderTail_inv (ty : List Char) (sc : Option (List Char)) (r : List Char)
    (t' : List Char) (s' : Option (List Char)) (ex : Bool) (d : List Char)
    (h : parseHeaderTail ty sc r = .ok (t', s', ex, d)) :
    t' = ty ∧ s' = sc ∧ ¬ d.all Char.isWhitespace = true ∧ ∀ c ∈ d, c ∈ r := by
  unfold parseHeaderTail at h
  split at h
  · rename_i d0 heq
    split at h
    · exact absurd h (by simp)
    · rename_i hall
      simp only [Except.ok.injEq, Prod.mk.injEq] at h
      obtain ⟨h1, h2, _, h4⟩ := h
      rw [h4] at hall
      refine ⟨h1.symm, h2.symm, hall, fun c hc => ?_⟩
      subst h4
      simp [hc]
  · rename_i d0 heq
    split at h
    · exact absurd h (by simp)
    · rename_i hall
      simp only [Except.ok.injEq, Prod.mk.injEq] at h
      obtain ⟨h1, h2, _, h4⟩ := h
      rw [h4] at hall
      refine ⟨h1.symm, h2.symm, hall, fun c hc => ?_⟩
      subst h4
      simp [hc]
  · exact absurd h (by simp)

/-- The textual form of the optional scope in the header: `(scope)` when
present, nothing otherwise. -/
def scopeText : Option (List Char) → List Char
  | none => []
  | some s => '(' :: (s ++ [')'])

theorem parseHeader_render (t : List Char) (sc : Option (List Char)) (d : List Char)
    (ht : t ≠ []) (htc : ∀ c ∈ t, isTypeChar c = true)
    (hsc : ∀ s, sc = some s → ')' ∉ s)
    (hd : ¬ d.all Char.isWhitespace = true) :
    parseHeader (t ++ scopeText sc ++ ':' :: ' ' :: d) = .ok (t, sc, false, d) := by
  cases sc with
  | none =>
    have h1 : (t ++ scopeText none ++ ':' :: ' ' :: d).takeWhile isTypeChar = t := by
      simp only [scopeText, List.append_nil]
      rw [takeWhile_append_all _ _ _ htc, List.takeWhile_cons_of_neg (by decide)]
      simp
    have h2 : (t ++ scopeText none ++ ':' :: ' ' :: d).dropWhile isTypeChar
        = ':' :: ' ' :: d := by
      simp only [scopeText, List.append_nil]
      rw [dropWhile_append_all _ _ _ htc, List.dropWhile_cons_of_neg (by decide)]
    simp only [parseHeader, h1, h2, if_neg ht]
    exact parseHeaderTail_colon t none d hd
  | some s0 =>
    have hs0 : ')' ∉ s0 := hsc s0 rfl
    have hals0 : ∀ c ∈ s0, (fun c => !(c == ')')) c = true := by
      intro c hc
      simp only [Bool.not_eq_true', beq_eq_false_iff_ne, ne_eq]
      intro hco
      exact hs0 (hco ▸ hc)
    have hshape : t ++ scopeText (some s0) ++ ':' :: ' ' :: d
        = t ++ '(' :: (s0 ++ ')' :: ':' :: ' ' :: d) := by
      simp [scopeText]
    rw [hshape]
    have h1 : (t ++ '(' :: (s0 ++ ')' :: ':' :: ' ' :: d)).takeWhile isTypeChar = t := by
      rw [takeWhile_append_all _ _ _ htc, List.takeWhile_cons_of_neg (by decide)]
      simp
    have h2 : (t ++ '(' :: (s0 ++ ')' :: ':' :: ' ' :: d)).dropWhile isTypeChar
        = '(' :: (s0 ++ ')' :: ':' :: ' ' :: d) := by
      rw [dropWhile_append_all _ _ _ htc, List.dropWhile_cons_of_neg (by decide)]
    have h3 : (s0 ++ ')' :: ':' :: ' ' :: d).takeWhile (fun c => !(c == ')')) = s0 := by
      rw [takeWhile_append_all _ _ _ hals0, List.takeWhile_cons_of_neg (by decide)]
      simp
    have h4 : (s0 ++ ')' :: ':' :: ' ' :: d).dropWhile (fun c => !(c == ')'))
        = ')' :: ':' :: ' ' :: d := by
      rw [dropWhile_append_all _ _ _ hals0, List.dropWhile_cons_of_neg (by decide)]
    simp only [parseHeader, h1, h2, if_neg ht, h3, h4]
    exact parseHeaderTail_colon t (some s0) d hd

theorem parseHeader_inv (l t : List Char) (sc : Option (List Char)) (ex : Bool)
    (d : List Char) (h : parseHeader l = .ok (t, sc, ex, d)) :
    t ≠ [] ∧ (∀ c ∈ t, isTypeChar c = true) ∧
      (∀ s, sc = some s → ')' ∉ s ∧ ∀ c ∈ s, c ∈ l) ∧
      ¬ d.all Char.isWhitespace = true ∧ (∀ c ∈ d, c ∈ l) := by
  simp only [parseHeader] at h
  split at h
  · exact absurd h (by simp)
  · rename_i hty
    split at h
    · rename_i r1 heq
      split at h
      · rename_i r2 heq2
        obtain ⟨e1, e2, hall, hmem⟩ := parseHeaderTail_inv _ _ _ _ _ _ _ h
        have hr1l : ∀ c ∈ r1, c ∈ l := by
          intro c hc
          have : c ∈ l.dropWhile isTypeChar := by
            rw [heq]
            simp [hc]
          exact (List.dropWhile_sublist isTypeChar).mem this
        have hr2r1 : ∀ c ∈ r2, c ∈ r1 := by
          intro c hc
          have : c ∈ r1.dropWhile (fun c => !(c == ')')) := by
            rw [heq2]
            simp [hc]
          exact (List.dropWhile_sublist _).mem this
        refine ⟨?_, ?_, ?_, hall, ?_⟩
        · rw [e1]
          exact hty
        · intro c hc
          rw [e1] at hc
          exact List.mem_takeWhile_imp hc
        · intro s hs
          rw [e2] at hs
          injection hs with hs
          subst hs
          constructor
          · intro hmemc
            have := List.mem_takeWhile_imp hmemc
            simp at this
          · intro c hc
            exact hr1l c ((List.takeWhile_sublist _).mem hc)
        · intro c hc
          exact hr1l c (hr2r1 c (hmem c hc))
      · exact absurd h (by simp)
    · rename_i hne
      obtain ⟨e1, e2, hall, hmem⟩ := parseHeaderTail_inv _ _ _ _ _ _ _ h
      refine ⟨?_, ?_, ?_, hall, ?_⟩
      · rw [e1]
        exact hty
      · intro c hc
        rw [e1] at hc
        exact List.mem_takeWhile_imp hc
      · intro s hs
        rw [e2] at hs
        exact absurd hs (by simp)
      · intro c hc
        exact (List.dropWhile_sublist isTypeChar).mem (hmem c hc)

theorem parse_no_newline (s : String) (hnl : '\n' ∉ s.data)
    (t : List Char) (sc : Option (List Char)) (ex : Bool) (d : List Char)
    (h : parseHeader s.data = .ok (t, sc, ex, d)) :
    parse s = .ok (⟨t⟩, sc.map String.mk, ex, ⟨d⟩, none, []) := by
  simp only [parse, parseRest, splitFirstLine_no_newline s.data hnl, h]

/-- C9: every input of the form `type: description` — a nonempty type of
admissible characters, the exact `: ` separator, and a single-line
description that is not all whitespace — parses successfully into a commit
with no scope, no body, `breaking = false`, and no trailers. -/
theorem parse_simple_header (ty d : String)
    (h1 : ty.data ≠ [])
    (h2 : ∀ c ∈ ty.data, isTypeChar c = true)
    (h3 : '\n' ∉ d.data)
    (h4 : ¬ d.data.all Char.isWhitespace = true) :
    Commit.new (ty ++ ": " ++ d) = .ok ⟨ty, none, d, none, false, []⟩ := by
  have hdata : (ty ++ ": " ++ d).data = ty.data ++ scopeText none ++ ':' :: ' ' :: d.data := by
    simp [String.data_append, scopeText]
  have hh : parseHeader (ty ++ ": " ++ d).data = .ok (ty.data, none, false, d.data) := by
    rw [hdata]
    exact parseHeader_render ty.data none d.data h1 h2 (fun s hs => nomatch hs) h4
  have hnl : '\n' ∉ (ty ++ ": " ++ d).data := by
    rw [hdata]
    intro hmem
    simp only [scopeText, List.append_nil, List.mem_append, List.mem_cons] at hmem
    rcases hmem with hty | hco | hsp | hd
    · exact isTypeChar_not_newline (h2 _ hty) rfl
    · exact absurd hco (by decide)
    · exact absurd hsp (by decide)
    · exact h3 hd
  have hp := parse_no_newline _ hnl _ _ _ _ hh
  unfold Commit.new
  rw [hp]
  rfl

/-- Witness for C9 at the concrete header `feat: add arrays`. -/
theorem parse_simple_header_w :
    Commit.new "feat: add arrays" = .ok ⟨"feat", none, "add arrays", none, false, []⟩ :=
  parse_simple_header "feat" "add arrays" (by decide) (by decide) (by decide) (by decide)

theorem parse_inv (s : String) (T : String) (SC : Option String) (EX : Bool)
    (D : String) (B : Option String)
    (TR : List (String × FooterSeparator × String))
    (h : parse s = .ok (T, SC, EX, D, B, TR)) :
    ∃ t sc d, parseHeader (splitFirstLine s.data).1 = .ok (t, sc, EX, d) ∧
      T = ⟨t⟩ ∧ SC = sc.map String.mk ∧ D = ⟨d⟩ := by
  have hrest : ∀ (t : List Char) (sc : Option (List Char)) (ex : Bool) (d : List Char)
      (rest : Option (List Char)),
      parseRest t sc ex d rest = .ok (T, SC, EX, D, B, TR) →
      T = ⟨t⟩ ∧ SC = sc.map String.mk ∧ EX = ex ∧ D = ⟨d⟩ := by
    intro t sc ex d rest hr
    unfold parseRest at hr
    split at hr
    · simp only [Except.ok.injEq, Prod.mk.injEq] at hr
      exact ⟨hr.1.symm, hr.2.1.symm, hr.2.2.1.symm, hr.2.2.2.1.symm⟩
    · simp only [Except.ok.injEq, Prod.mk.injEq] at hr
      exact ⟨hr.1.symm, hr.2.1.symm, hr.2.2.1.symm, hr.2.2.2.1.symm⟩
    · split at hr
      · simp only [Except.ok.injEq, Prod.mk.injEq] at hr
        exact ⟨hr.1.symm, hr.2.1.symm, hr.2.2.1.symm, hr.2.2.2.1.symm⟩
      · exact absurd hr (by simp)
  unfold parse at h
  rcases hph : parseHeader (splitFirstLine s.data).1 with e | ⟨t, sc, ex, d⟩
  · rw [hph] at h
    exact absurd h (by simp)
  · rw [hph] at h
    obtain ⟨hT, hSC, hEX, hD⟩ := hrest t sc ex d _ h
    refine ⟨t, sc, d, ?_, hT, hSC, hD⟩
    rw [hEX]

theorem display_header_data (sc : Option (List Char)) (T D : String) (br : Bool) :
    (Commit.display ⟨T, sc.map String.mk, D, none, br, []⟩).data
      = T.data ++ scopeText sc ++ ':' :: ' ' :: D.data := by
  cases sc with
  | none =>
    simp [Commit.display, scopeText, String.data_append]
  | some s0 =>
    simp [Commit.display, scopeText, String.data_append]

/-- C1 (amended): for a successfully parsed commit with no body and no
trailers, re-parsing the `Display` rendering succeeds and restores the
type, scope and description exactly; the re-parsed `breaking` flag is
`false` (the rendering never emits the `!` marker), so `breaking` is
preserved exactly when the original commit was not breaking. -/
theorem display_roundtrip (s : String) (c : Commit)
    (h : Commit.new s = .ok c) (hb : c.body = none) (ht : c.trailers = []) :
    Commit.new c.display
      = .ok { ty := c.ty, scope := c.scope, description := c.description,
              body := none, breaking := false, trailers := [] } := by
  unfold Commit.new at h
  rcases hps : parse s with e | ⟨T, SC, EX, D, B, TR⟩
  · rw [hps] at h
    exact absurd h (by simp)
  · rw [hps] at h
    simp only [Except.ok.injEq] at h
    subst h
    obtain ⟨t, sc, d, hph, hT, hSC, hD⟩ := parse_inv s T SC EX D B TR hps
    subst hT
    subst hSC
    subst hD
    have hB : B = none := hb
    subst hB
    have hTR : TR = [] := by
      have hmap : TR.map (fun (tk, sp, v) => (⟨tk, sp, v⟩ : Footer)) = [] := ht
      exact List.map_eq_nil_iff.mp hmap
    subst hTR
    obtain ⟨htne, htc, hscf, hdall, hdmem⟩ := parseHeader_inv _ _ _ _ _ hph
    have hnlhl : '\n' ∉ (splitFirstLine s.data).1 := splitFirstLine_fst_no_newline s.data
    simp only [List.map_nil, List.any_nil, Bool.or_false]
    have hnld : '\n' ∉ (Commit.display ⟨⟨t⟩, sc.map String.mk, ⟨d⟩, none, EX, []⟩).data := by
      rw [display_header_data]
      intro hm
      simp only [List.mem_append, List.mem_cons] at hm
      rcases hm with (hmt | hmsc) | hco | hsp | hmd
      · exact isTypeChar_not_newline (htc _ hmt) rfl
      · cases sc with
        | none => simp [scopeText] at hmsc
        | some s0 =>
          simp only [scopeText, List.mem_cons, List.mem_append] at hmsc
          rcases hmsc with hpo | hms | hpc
          · exact absurd hpo (by decide)
          · exact hnlhl ((hscf s0 rfl).2 _ hms)
          · simp at hpc
      · exact absurd hco (by decide)
      · exact absurd hsp (by decide)
      · exact hnlhl (hdmem _ hmd)
    have hph2 : parseHeader (Commit.display ⟨⟨t⟩, sc.map String.mk, ⟨d⟩, none, EX, []⟩).data
        = .ok (t, sc, false, d) := by
      rw [display_header_data]
      exact parseHeader_render t sc d htne htc (fun s1 hs1 => (hscf s1 hs1).1) hdall
    have hp2 := parse_no_newline _ hnld _ _ _ _ hph2
    simp only [Commit.new, hp2]
    rfl

/-- Counterexample to C1 as stated: `feat!: x` parses to a commit with no
body, no trailers and `breaking = true`; its `Display` rendering is
`feat: x` (the `!` marker is not reproduced), which re-parses with
`breaking = false`, so the breaking flags differ. -/
theorem display_roundtrip_cex :
    Commit.new "feat!: x" = .ok ⟨"feat", none, "x", none, true, []⟩ ∧
    (Commit.mk "feat" none "x" none true []).body = none ∧
    (Commit.mk "feat" none "x" none true []).trailers = [] ∧
    Commit.display ⟨"feat", none, "x", none, true, []⟩ = "feat: x" ∧
    Commit.new (Commit.display ⟨"feat", none, "x", none, true, []⟩)
      = .ok ⟨"feat", none, "x", none, false, []⟩ ∧
    ¬((false : Bool) = true) := by
  decide

/-- Witness for C1 (amended) at `feat(ui): add x`. -/
theorem display_roundtrip_w :
    Commit.new (Commit.display ⟨"feat", some "ui", "add x", none, false, []⟩)
      = .ok ⟨"feat", some "ui", "add x", none, false, []⟩ :=
  display_roundtrip "feat(ui): add x" ⟨"feat", some "ui", "add x", none, false, []⟩
    (by decide) (by decide) (by decide)

/-- C2: for every successfully parsed input, the commit's `breaking` flag is
true exactly when the header carried the explicit marker or some trailer's
token is byte-for-byte (case-sensitively) `BREAKING CHANGE`. -/
theorem breaking_iff (s : String) (t : String) (sc : Option String) (ex : Bool)
    (d : String) (b : Option String)
    (tr : List (String × FooterSeparator × String)) (c : Commit)
    (hp : parse s = .ok (t, sc, ex, d, b, tr))
    (hc : Commit.new s = .ok c) :
    (c.breaking = true ↔ ex = true ∨ ∃ f ∈ tr, f.1 = "BREAKING CHANGE") := by
  unfold Commit.new at hc
  rw [hp] at hc
  simp only [Except.ok.injEq] at hc
  subst hc
  simp [List.any_eq_true, Bool.or_eq_true]

/-- Witness for C2: a commit with no header marker and a single
`BREAKING CHANGE` trailer has `breaking = true`. -/
theorem breaking_iff_w :
    (Commit.mk "feat" none "x" none true
        [⟨"BREAKING CHANGE", .ColonSpace, "boom"⟩]).breaking = true :=
  (breaking_iff "feat: x\n\nBREAKING CHANGE: boom" "feat" none false "x" none
      [("BREAKING CHANGE", .ColonSpace, "boom")]
      ⟨"feat", none, "x", none, true, [⟨"BREAKING CHANGE", .ColonSpace, "boom"⟩]⟩
      (by decide) (by decide)).mpr
    (Or.inr ⟨("BREAKING CHANGE", .ColonSpace, "boom"), by decide, rfl⟩)

/-- Counterexample to C3 as stated: with no header marker and two footers
whose token is exactly `BREAKING CHANGE` (so not exactly one), the code
still sets `breaking = true` — the derivation uses `any`, not a
uniqueness count. -/
theorem breaking_exactly_one_cex :
    parse "feat: x\n\nBREAKING CHANGE: a\nBREAKING CHANGE: b"
      = .ok ("feat", none, false, "x", none,
          [("BREAKING CHANGE", .ColonSpace, "a"),
           ("BREAKING CHANGE", .ColonSpace, "b")]) ∧
    Commit.new "feat: x\n\nBREAKING CHANGE: a\nBREAKING CHANGE: b"
      = .ok ⟨"feat", none, "x", none, true,
          [⟨"BREAKING CHANGE", .ColonSpace, "a"⟩,
           ⟨"BREAKING CHANGE", .ColonSpace, "b"⟩]⟩ ∧
    ¬((false = true) ∨
        List.countP (fun f => f.1 == "BREAKING CHANGE")
          ([("BREAKING CHANGE", FooterSeparator.ColonSpace, "a"),
            ("BREAKING CHANGE", FooterSeparator.ColonSpace, "b")] :
            List (String × FooterSeparator × String)) = 1) := by
  decide

/-- C3 (amended): the commit's `breaking` flag is true exactly when the
explicit header marker was present or AT LEAST one footer's token
case-sensitively equals `BREAKING CHANGE` (the code imposes no uniqueness:
two such footers also set the flag). -/
theorem breaking_count (s : String) (t : String) (sc : Option String) (ex : Bool)
    (d : String) (b : Option String)
    (tr : List (String × FooterSeparator × String)) (c : Commit)
    (hp : parse s = .ok (t, sc, ex, d, b, tr))
    (hc : Commit.new s = .ok c) :
    (c.breaking = true ↔ ex = true ∨
      0 < tr.countP (fun f => f.1 == "BREAKING CHANGE")) := by
  unfold Commit.new at hc
  rw [hp] at hc
  simp only [Except.ok.injEq] at hc
  subst hc
  simp [List.any_eq_true, Bool.or_eq_true, List.countP_pos_iff]

/-- Witness for C3 (amended): two `BREAKING CHANGE` footers and no header
marker still give `breaking = true`. -/
theorem breaking_count_w :
    (Commit.mk "chore" none "y" none true
        [⟨"BREAKING CHANGE", .ColonSpace, "one"⟩,
         ⟨"BREAKING CHANGE", .ColonSpace, "two"⟩]).breaking = true :=
  (breaking_count "chore: y\n\nBREAKING CHANGE: one\nBREAKING CHANGE: two"
      "chore" none false "y" none
      [("BREAKING CHANGE", .ColonSpace, "one"), ("BREAKING CHANGE", .ColonSpace, "two")]
      ⟨"chore", none, "y", none, true,
        [⟨"BREAKING CHANGE", .ColonSpace, "one"⟩,
         ⟨"BREAKING CHANGE", .ColonSpace, "two"⟩]⟩
      (by decide) (by decide)).mpr
    (Or.inr (by decide))
